import Mathlib

/-!
Shallow embedding of the risk-metric computation engine of
`apps/risk_api/app/api/stock_utils.py` (functions `calculate_historical_var`,
`calculate_daily_returns`, `beta_calculation`) together with the pandas/numpy
primitives those functions invoke (`DataFrame.pct_change`, `DataFrame.dropna`,
`DataFrame.dot`, `np.percentile`, `Series.std`, `Series.cov`, `Series.var`).

Modelling conventions:
* Python floats are modelled exactly as rationals `ℚ`; the one genuinely
  irrational operation (the square root inside `Series.std`) is modelled in `ℝ`.
* The market-data provider (`yf.download`) is an external collaborator; per the
  repository's interface it yields one aligned close-price table, one column per
  requested symbol, row-indexed by trading date.  We model the provider as a
  `MarketData` environment giving, for each symbol and date index, an optional
  close price (`none` = missing value / NaN cell), and each operation receives
  that environment as an argument.  The frame returned for a request list is the
  list of columns of the requested symbols, in request order.
* A Python function outcome is an `Outcome`: a normal return value, a NaN
  result, or a propagated unstructured exception (`raised`).  The constructors
  `inputError` and `dataUnavailableError` model the typed failures named by the
  specification's error taxonomy; the code under `stock_utils.py` never
  produces them, and having them as constructors lets the file state claims
  about their (non-)occurrence.
* `pct_change()` is called with no arguments, so pandas' default
  `fill_method='pad'` applies: each column is forward-filled before the
  one-period percentage change is taken.  `dropna()` with no arguments drops
  every row containing at least one missing value.
* `Series.std`, `Series.var`, `Series.cov` use their pandas default `ddof = 1`
  and produce NaN when fewer than two observations are available.
-/

namespace RiskPulse

/-- A portfolio position, from `schemas.Position`: a ticker symbol and a
fractional allocation weight. -/
structure Position where
  symbol : String
  allocation : ℚ
deriving DecidableEq

/-- A portfolio, from `schemas.Portfolio`: an ordered list of positions.  The
optional document id is omitted: no risk computation reads it. -/
structure Portfolio where
  positions : List Position
deriving DecidableEq

/-- The market-data environment backing `yf.download` over the requested date
range: `numDates` trading dates (indexed `0, …, numDates - 1` in time order)
and, for each symbol and date index, an optional close price (`none` models a
missing cell / NaN in the downloaded frame). -/
structure MarketData where
  numDates : ℕ
  price : String → ℕ → Option ℚ

/-- The fixed benchmark index symbol, from `stock_utils.MARKET_TICKER`. -/
def MARKET_TICKER : String := "^GSPC"

/-- Python's `str.upper()`, applied character-wise. -/
def upper (s : String) : String := ⟨s.data.map Char.toUpper⟩

/-- One close-price column: the series of optional prices of a symbol over the
fetched date range. -/
abbrev Col := List (Option ℚ)

/-- The close-price column of one symbol in the downloaded frame. -/
def closeCol (md : MarketData) (s : String) : Col :=
  (List.range md.numDates).map (md.price s)

/-- Forward fill of a column (pandas `ffill`), with `acc` the last value seen
so far (`none` at the start of the column). -/
def ffillFrom (acc : Option ℚ) : Col → Col
  | [] => []
  | x :: xs =>
    match x with
    | some v => some v :: ffillFrom (some v) xs
    | none => acc :: ffillFrom acc xs

/-- Pandas `Series.pct_change()` on one column with the default
`fill_method='pad'`: the column is forward-filled, then entry `t` becomes
`filled[t] / filled[t-1] - 1`; the first entry, and any entry whose predecessor
is still missing after the fill, is NaN (`none`). -/
def pctChange (col : Col) : Col :=
  match col with
  | [] => []
  | _ =>
    let f := ffillFrom none col
    none :: List.zipWith (fun a b =>
      match a, b with
      | some a, some b => some (b / a - 1)
      | _, _ => none) f f.tail

/-- Row extraction with pandas `dropna` semantics: the row of values of all
columns at date index `t`, provided every column has a value there; `none` if
any column is missing a value (the row is dropped). -/
def optionRow (cols : List Col) (t : ℕ) : Option (List ℚ) :=
  if cols.all (fun c => (c.getD t none).isSome)
  then some (cols.map (fun c => (c.getD t none).getD 0))
  else none

/-- Dot product of a row of returns with the allocation weights
(`DataFrame.dot` of a row against the weight vector, positional). -/
def dot (xs ws : List ℚ) : ℚ := (List.zipWith (· * ·) xs ws).sum

/-- The uppercased ticker list extracted from a portfolio
(`[pos.symbol.upper() for pos in portfolio.positions]`). -/
def portfolioSymbols (p : Portfolio) : List String :=
  p.positions.map (fun pos => upper pos.symbol)

/-- The allocation-weight vector extracted from a portfolio
(`np.array([pos.allocation for pos in portfolio.positions])`). -/
def portfolioAllocations (p : Portfolio) : List ℚ :=
  p.positions.map (fun pos => pos.allocation)

/-- The daily-return columns of a requested symbol list:
`close.pct_change()` applied to each close column. -/
def returnCols (md : MarketData) (symbols : List String) : List Col :=
  symbols.map (fun s => pctChange (closeCol md s))

/-- The daily return of one symbol at one date index, as an optional value. -/
def retAt (md : MarketData) (s : String) (t : ℕ) : Option ℚ :=
  (pctChange (closeCol md s)).getD t none

/-- The aligned return table `close.pct_change().dropna()`: the surviving
`(date index, row)` pairs, a row surviving exactly when every requested
symbol's return is present at that date. -/
def alignedReturnRows (md : MarketData) (symbols : List String) :
    List (ℕ × List ℚ) :=
  (List.range md.numDates).filterMap (fun t =>
    (optionRow (returnCols md symbols) t).map (fun r => (t, r)))

/-- The portfolio daily-return series `returns.dot(allocations)`: per surviving
date, the dot product of the return row with the allocation weights, in date
order. -/
def portReturnSeries (md : MarketData) (p : Portfolio) : List ℚ :=
  (alignedReturnRows md (portfolioSymbols p)).map
    (fun tr => dot tr.2 (portfolioAllocations p))

/-- Outcome of one of the Python risk operations: a returned value, a returned
NaN, or a propagated unstructured exception (`raised`).  `inputError` and
`dataUnavailableError` are the typed failures of the specification's error
taxonomy; no code path of `stock_utils.py` constructs them. -/
inductive Outcome (α : Type) where
  | ok : α → Outcome α
  | nan : Outcome α
  | raised : Outcome α
  | inputError : Outcome α
  | dataUnavailableError : Outcome α
deriving DecidableEq

/-- Map a function over the value of a successful outcome. -/
def Outcome.map {α β : Type} (f : α → β) : Outcome α → Outcome β
  | .ok v => .ok (f v)
  | .nan => .nan
  | .raised => .raised
  | .inputError => .inputError
  | .dataUnavailableError => .dataUnavailableError

/-- Mean of a list of rationals (`sum / len`; Lean's `x / 0 = 0` convention is
only ever exercised behind explicit length guards, mirroring pandas' NaN). -/
def mean (xs : List ℚ) : ℚ := xs.sum / xs.length

/-- Sample variance with divisor `n - 1` (pandas default `ddof = 1`). -/
def sampleVar (xs : List ℚ) : ℚ :=
  ((xs.map (fun x => (x - mean xs) ^ 2)).sum) / ((xs.length : ℚ) - 1)

/-- Sample covariance with divisor `n - 1` (pandas default `ddof = 1`). -/
def sampleCov (xs ys : List ℚ) : ℚ :=
  ((List.zipWith (fun x y => (x - mean xs) * (y - mean ys)) xs ys).sum) /
    ((xs.length : ℚ) - 1)

/-- Pandas `Series.var()` (`ddof = 1`): NaN (`none`) on fewer than two
observations. -/
def seriesVar (xs : List ℚ) : Option ℚ :=
  if 2 ≤ xs.length then some (sampleVar xs) else none

/-- Pandas `Series.cov(other)` (`ddof = 1`): NaN (`none`) on fewer than two
paired observations.  Both series here range over the same aligned dates. -/
def seriesCov (xs ys : List ℚ) : Option ℚ :=
  if 2 ≤ xs.length ∧ 2 ≤ ys.length then some (sampleCov xs ys) else none

/-- Linear interpolation between order statistics at fractional rank `h`, as
numpy's default percentile interpolation performs it on the sorted data:
`s⌊h⌋ + (h - ⌊h⌋) * (s⌊h⌋₊₁ - s⌊h⌋)`. -/
def interpolate (s : List ℚ) (h : ℚ) : ℚ :=
  s.getD ⌊h⌋.toNat 0
    + (h - (⌊h⌋.toNat : ℚ)) * (s.getD (⌊h⌋.toNat + 1) 0 - s.getD ⌊h⌋.toNat 0)

/-- Numpy `np.percentile(a, q)` with the default linear interpolation between
order statistics: the interpolation of the sorted data at fractional rank
`h = q/100 * (n-1)`.  `none` models the exception numpy raises on an empty
array or a percentile outside `[0, 100]`. -/
def npPercentile (xs : List ℚ) (q : ℚ) : Option ℚ :=
  if xs.isEmpty ∨ q < 0 ∨ 100 < q then none
  else
    some (interpolate (xs.mergeSort (fun a b => a ≤ b))
      (q / 100 * ((xs.length : ℚ) - 1)))

/-- Source `calculate_historical_var(portfolio, confidence_level, …)`:
download the portfolio's symbols, build the aligned portfolio return series,
and return `-np.percentile(port_returns, (1 - confidence_level) * 100)`.
An empty portfolio leads to `yf.download([])`, whose empty frame makes the
`df["Close"]` lookup raise; a numpy percentile failure (empty series or
percentile outside `[0, 100]`) likewise propagates as `raised`.  No input
validation and no typed error exists on any path. -/
def calculate_historical_var (p : Portfolio) (confidence_level : ℚ)
    (md : MarketData) : Outcome ℚ :=
  if (portfolioSymbols p).isEmpty then .raised
  else
    match npPercentile (portReturnSeries md p)
        ((1 - confidence_level) * 100) with
    | none => .raised
    | some v => .ok (-v)

/-- The squared-volatility stage of `calculate_daily_returns`: pandas
`port_returns.std()` is `sqrt` of the `ddof = 1` sample variance and is NaN on
fewer than two observations; this computable stage returns the variance, the
square root being taken in `calculate_daily_returns`. -/
def stdSqOutcome (xs : List ℚ) : Outcome ℚ :=
  if 2 ≤ xs.length then .ok (sampleVar xs) else .nan

/-- Source `calculate_daily_returns(portfolio, …)`: build the aligned
portfolio return series exactly as in `calculate_historical_var` and return
`float(port_returns.std())` — the square root of the `ddof = 1` sample
variance, NaN on fewer than two observations.  An empty portfolio raises at
the `df["Close"]` lookup, exactly as in `calculate_historical_var`. -/
noncomputable def calculate_daily_returns (p : Portfolio) (md : MarketData) :
    Outcome ℝ :=
  if (portfolioSymbols p).isEmpty then .raised
  else Outcome.map (fun v : ℚ => Real.sqrt (v : ℝ))
    (stdSqOutcome (portReturnSeries md p))

/-- The combined download list of `beta_calculation`:
`download_list = symbols + [MARKET_TICKER]`, a single data pull. -/
def betaDownloadList (p : Portfolio) : List String :=
  portfolioSymbols p ++ [MARKET_TICKER]

/-- The aligned rows of `beta_calculation` after
`all_returns = close.pct_change().dropna()`: per surviving date (every column
of the combined download list present), the date index, the portfolio return
`all_returns[symbols].dot(weights)` and the benchmark return
`all_returns[MARKET_TICKER]`, both selected by column name. -/
def betaAlignedRows (md : MarketData) (p : Portfolio) : List (ℕ × ℚ × ℚ) :=
  (List.range md.numDates).filterMap (fun t =>
    match optionRow (returnCols md (betaDownloadList p)) t with
    | none => none
    | some _ =>
      match optionRow (returnCols md (portfolioSymbols p)) t,
          retAt md MARKET_TICKER t with
      | some row, some m =>
          some (t, dot row (portfolioAllocations p), m)
      | _, _ => none)

/-- Source `beta_calculation(portfolio, …)`: one combined download of the
portfolio symbols plus the benchmark, joint row-wise alignment of all return
columns, then `port_returns.cov(market_returns) / market_returns.var()` with
pandas `ddof = 1`.  Fewer than two aligned dates makes covariance and variance
NaN, and a benchmark variance of zero makes the ratio the float `0.0/0.0`
(the covariance against a constant series being zero); both yield NaN. -/
def beta_calculation (p : Portfolio) (md : MarketData) : Outcome ℚ :=
  let pairs := betaAlignedRows md p
  let ports := pairs.map (fun x => x.2.1)
  let mkts := pairs.map (fun x => x.2.2)
  match seriesCov ports mkts, seriesVar mkts with
  | some c, some v => if v = 0 then .nan else .ok (c / v)
  | _, _ => .nan

/-- A column is hole-free when every missing value precedes every present one:
the symbol's series, once begun, has no interior gap. -/
def holeFree (c : Col) : Bool :=
  (c.dropWhile (fun x => x.isNone)).all (fun x => x.isSome)

/-- Mapping before `List.all` composes the predicate with the map. -/
theorem all_map_comp {α β : Type} (f : α → β) (p : β → Bool) (l : List α) :
    (l.map f).all p = l.all (fun x => p (f x)) := by
  induction l with
  | nil => rfl
  | cons x xs ih => simp [List.all_cons, ih]

/-- Dot product of two lists obtained by mapping over the same list. -/
theorem dot_map_map {α : Type} (f g : α → ℚ) (l : List α) :
    dot (l.map f) (l.map g) = (l.map (fun x => f x * g x)).sum := by
  induction l with
  | nil => rfl
  | cons x xs ih =>
    rw [List.map_cons, List.map_cons, List.map_cons, dot,
      List.zipWith_cons_cons, List.sum_cons, List.sum_cons, ← dot, ih]

/-- The survival condition of a date in the aligned return table of a
portfolio's symbol list, in per-position form. -/
theorem returnCols_all_eq (md : MarketData) (p : Portfolio) (t : ℕ) :
    (returnCols md (portfolioSymbols p)).all
        (fun c => (c.getD t none).isSome)
      = p.positions.all (fun pos => (retAt md (upper pos.symbol) t).isSome) := by
  rw [returnCols, portfolioSymbols, List.map_map, all_map_comp]
  rfl

/-- Per-position form of the portfolio return series: a date survives exactly
when every position's symbol has a return there, and the portfolio value at a
surviving date is the sum of `return * allocation` over the positions, in
list order. -/
theorem portReturnSeries_eq (md : MarketData) (p : Portfolio) :
    portReturnSeries md p =
      (List.range md.numDates).filterMap (fun t =>
        if p.positions.all (fun pos => (retAt md (upper pos.symbol) t).isSome)
        then some ((p.positions.map (fun pos =>
            ((retAt md (upper pos.symbol) t).getD 0) * pos.allocation)).sum)
        else none) := by
  unfold portReturnSeries alignedReturnRows
  rw [List.map_filterMap]
  congr 1
  funext t
  rw [optionRow, returnCols_all_eq]
  by_cases hall :
      p.positions.all (fun pos => (retAt md (upper pos.symbol) t).isSome)
  · rw [if_pos hall, if_pos hall, Option.map_some', Option.map_some']
    congr 1
    rw [show returnCols md (portfolioSymbols p)
        = p.positions.map (fun pos => pctChange (closeCol md (upper pos.symbol)))
      by rw [returnCols, portfolioSymbols, List.map_map]; rfl]
    rw [List.map_map, portfolioAllocations, dot_map_map]
    rfl
  · rw [if_neg hall, if_neg hall, Option.map_none', Option.map_none']

/-- A permutation of a list leaves `List.all` unchanged. -/
theorem perm_all_eq {α : Type} {l₁ l₂ : List α} (h : l₁.Perm l₂)
    (f : α → Bool) : l₁.all f = l₂.all f := by
  rw [Bool.eq_iff_iff, List.all_eq_true, List.all_eq_true]
  exact ⟨fun H x hx => H x (h.mem_iff.mpr hx),
    fun H x hx => H x (h.mem_iff.mp hx)⟩

/-- Permuting the positions of a portfolio leaves the portfolio daily-return
series unchanged date by date. -/
theorem portReturnSeries_perm (md : MarketData) {p₁ p₂ : Portfolio}
    (h : p₁.positions.Perm p₂.positions) :
    portReturnSeries md p₁ = portReturnSeries md p₂ := by
  rw [portReturnSeries_eq, portReturnSeries_eq]
  congr 1
  funext t
  rw [perm_all_eq h, (h.map _).sum_eq]

/-- Permuting the positions leaves the extracted symbol list's emptiness
unchanged. -/
theorem portfolioSymbols_isEmpty_perm {p₁ p₂ : Portfolio}
    (h : p₁.positions.Perm p₂.positions) :
    (portfolioSymbols p₁).isEmpty = (portfolioSymbols p₂).isEmpty := by
  rw [Bool.eq_iff_iff, List.isEmpty_iff, List.isEmpty_iff]
  simp only [portfolioSymbols, List.map_eq_nil_iff]
  constructor
  · intro e
    rw [e] at h
    exact h.symm.eq_nil
  · intro e
    rw [e] at h
    exact h.eq_nil

/-- Per-position form of the aligned rows of `beta_calculation`: a date
survives exactly when every position's symbol and the benchmark have a return
there, and then carries the weighted portfolio return and the benchmark
return. -/
theorem betaAlignedRows_eq (md : MarketData) (p : Portfolio) :
    betaAlignedRows md p =
      (List.range md.numDates).filterMap (fun t =>
        if (p.positions.all
              (fun pos => (retAt md (upper pos.symbol) t).isSome))
            && (retAt md MARKET_TICKER t).isSome
        then some (t,
          (p.positions.map (fun pos =>
            ((retAt md (upper pos.symbol) t).getD 0) * pos.allocation)).sum,
          (retAt md MARKET_TICKER t).getD 0)
        else none) := by
  unfold betaAlignedRows betaDownloadList
  congr 1
  funext t
  rw [show returnCols md (portfolioSymbols p ++ [MARKET_TICKER])
      = returnCols md (portfolioSymbols p)
        ++ [pctChange (closeCol md MARKET_TICKER)] by
    simp [returnCols]]
  rw [optionRow, optionRow, List.all_append, returnCols_all_eq]
  rw [show ([pctChange (closeCol md MARKET_TICKER)] : List Col).all
        (fun c => (c.getD t none).isSome)
      = (retAt md MARKET_TICKER t).isSome by
    simp [retAt]]
  by_cases hall :
      p.positions.all (fun pos => (retAt md (upper pos.symbol) t).isSome)
  · by_cases hm : (retAt md MARKET_TICKER t).isSome
    · rw [hall, hm]
      cases hmv : retAt md MARKET_TICKER t with
      | none => rw [hmv] at hm; simp at hm
      | some m =>
        have hd : dot (List.map (fun c => (c.getD t none).getD 0)
              (returnCols md (portfolioSymbols p))) (portfolioAllocations p)
            = (p.positions.map (fun pos =>
                ((retAt md (upper pos.symbol) t).getD 0) * pos.allocation)).sum := by
          rw [show returnCols md (portfolioSymbols p)
              = p.positions.map
                  (fun pos => pctChange (closeCol md (upper pos.symbol)))
            by rw [returnCols, portfolioSymbols, List.map_map]; rfl]
          rw [List.map_map, portfolioAllocations, dot_map_map]
          rfl
        simp only [retAt, List.getD_eq_getElem?_getD] at hd
        simp [retAt, hd]
    · rw [hall, Bool.true_and]
      cases hmv : retAt md MARKET_TICKER t with
      | some m => rw [hmv] at hm; simp at hm
      | none => simp
  · rw [show (p.positions.all
        (fun pos => (retAt md (upper pos.symbol) t).isSome)) = false by
      simpa using hall]
    simp

/-- Permuting the positions leaves the aligned rows of `beta_calculation`
unchanged. -/
theorem betaAlignedRows_perm (md : MarketData) {p₁ p₂ : Portfolio}
    (h : p₁.positions.Perm p₂.positions) :
    betaAlignedRows md p₁ = betaAlignedRows md p₂ := by
  rw [betaAlignedRows_eq, betaAlignedRows_eq]
  congr 1
  funext t
  rw [perm_all_eq h, (h.map _).sum_eq]

/-- C1: reordering the positions of a portfolio (same symbols and
allocations, different order) changes none of the three public operations:
historical VaR, daily-return volatility, and beta all return the same value
for the permuted portfolio under the same fetched price data. -/
theorem order_invariance (p₁ p₂ : Portfolio)
    (h : p₁.positions.Perm p₂.positions) (c : ℚ) (md : MarketData) :
    calculate_historical_var p₁ c md = calculate_historical_var p₂ c md ∧
    calculate_daily_returns p₁ md = calculate_daily_returns p₂ md ∧
    beta_calculation p₁ md = beta_calculation p₂ md := by
  have hs := portReturnSeries_perm md h
  have he := portfolioSymbols_isEmpty_perm h
  have hb := betaAlignedRows_perm md h
  exact ⟨by rw [calculate_historical_var, calculate_historical_var, hs, he],
    by rw [calculate_daily_returns, calculate_daily_returns, hs, he],
    by unfold beta_calculation; rw [hb]⟩

/-- A two-position sample portfolio used as concrete input. -/
def exP : Portfolio := ⟨[⟨"aapl", 3/4⟩, ⟨"NVDA", 1/4⟩]⟩

/-- The sample portfolio with its two positions in the opposite order. -/
def exPswap : Portfolio := ⟨[⟨"NVDA", 1/4⟩, ⟨"aapl", 3/4⟩]⟩

/-- A concrete market-data environment over three trading dates, extending the
mock table of the repository's own test with a benchmark column. -/
def exMd : MarketData :=
  { numDates := 3,
    price := fun s t =>
      if s = "AAPL" then [some 100, some 110, some 105].getD t none
      else if s = "NVDA" then [some 200, some 202, some 204].getD t none
      else if s = "^GSPC" then [some 50, some 55, some 66].getD t none
      else none }

/-- Witness for C1 at a concrete input: swapping the two positions of the
sample portfolio changes none of the three metrics. -/
theorem order_invariance_witness :
    calculate_historical_var exP (19/20) exMd
      = calculate_historical_var exPswap (19/20) exMd ∧
    calculate_daily_returns exP exMd = calculate_daily_returns exPswap exMd ∧
    beta_calculation exP exMd = beta_calculation exPswap exMd :=
  order_invariance exP exPswap
    (List.Perm.swap (⟨"NVDA", 1/4⟩ : Position) ⟨"aapl", 3/4⟩ []) (19/20) exMd

/-- C7: splitting one position into two positions with the same symbol whose
weights sum to the original weight leaves the portfolio daily-return series
unchanged, and with it the values of all three metric operations; duplicate
symbols are not merged, each occurrence contributing its own weighted term.
The equivalence is exact in the rational model, hence within any floating
tolerance. -/
theorem duplicate_position_split (pre post : List Position) (s : String)
    (w₁ w₂ : ℚ) (c : ℚ) (md : MarketData) :
    portReturnSeries md ⟨pre ++ ⟨s, w₁ + w₂⟩ :: post⟩
      = portReturnSeries md ⟨pre ++ ⟨s, w₁⟩ :: ⟨s, w₂⟩ :: post⟩ ∧
    calculate_historical_var ⟨pre ++ ⟨s, w₁ + w₂⟩ :: post⟩ c md
      = calculate_historical_var ⟨pre ++ ⟨s, w₁⟩ :: ⟨s, w₂⟩ :: post⟩ c md ∧
    calculate_daily_returns ⟨pre ++ ⟨s, w₁ + w₂⟩ :: post⟩ md
      = calculate_daily_returns ⟨pre ++ ⟨s, w₁⟩ :: ⟨s, w₂⟩ :: post⟩ md ∧
    beta_calculation ⟨pre ++ ⟨s, w₁ + w₂⟩ :: post⟩ md
      = beta_calculation ⟨pre ++ ⟨s, w₁⟩ :: ⟨s, w₂⟩ :: post⟩ md := by
  have hcond : ∀ t,
      ((pre ++ ⟨s, w₁ + w₂⟩ :: post).all
        (fun pos => (retAt md (upper pos.symbol) t).isSome))
      = ((pre ++ ⟨s, w₁⟩ :: ⟨s, w₂⟩ :: post).all
        (fun pos => (retAt md (upper pos.symbol) t).isSome)) := by
    intro t
    simp only [List.all_append, List.all_cons]
    cases (retAt md (upper s) t).isSome <;> simp
  have hsum : ∀ t,
      ((pre ++ ⟨s, w₁ + w₂⟩ :: post).map (fun pos =>
        ((retAt md (upper pos.symbol) t).getD 0) * pos.allocation)).sum
      = ((pre ++ ⟨s, w₁⟩ :: ⟨s, w₂⟩ :: post).map (fun pos =>
        ((retAt md (upper pos.symbol) t).getD 0) * pos.allocation)).sum := by
    intro t
    simp only [List.map_append, List.map_cons, List.sum_append, List.sum_cons]
    ring
  have hseries : portReturnSeries md ⟨pre ++ ⟨s, w₁ + w₂⟩ :: post⟩
      = portReturnSeries md ⟨pre ++ ⟨s, w₁⟩ :: ⟨s, w₂⟩ :: post⟩ := by
    rw [portReturnSeries_eq, portReturnSeries_eq]
    congr 1
    funext t
    rw [hcond t, hsum t]
  have hne : ∀ (l : List String) (a : String) (r : List String),
      (l ++ a :: r).isEmpty = false := by
    intro l a r
    cases l <;> rfl
  have hisE : (portfolioSymbols ⟨pre ++ ⟨s, w₁ + w₂⟩ :: post⟩).isEmpty
      = (portfolioSymbols ⟨pre ++ ⟨s, w₁⟩ :: ⟨s, w₂⟩ :: post⟩).isEmpty := by
    simp only [portfolioSymbols, List.map_append, List.map_cons]
    rw [hne, hne]
  have hrows : betaAlignedRows md ⟨pre ++ ⟨s, w₁ + w₂⟩ :: post⟩
      = betaAlignedRows md ⟨pre ++ ⟨s, w₁⟩ :: ⟨s, w₂⟩ :: post⟩ := by
    rw [betaAlignedRows_eq, betaAlignedRows_eq]
    congr 1
    funext t
    rw [hcond t, hsum t]
  exact ⟨hseries,
    by rw [calculate_historical_var, calculate_historical_var, hseries, hisE],
    by rw [calculate_daily_returns, calculate_daily_returns, hseries, hisE],
    by unfold beta_calculation; rw [hrows]⟩

/-- Mapping over a list leaves `isEmpty` unchanged. -/
theorem isEmpty_map {α β : Type} (f : α → β) (l : List α) :
    (l.map f).isEmpty = l.isEmpty := by
  cases l <;> rfl

/-- The sort used inside `npPercentile` is sorted for `≤` on `ℚ`. -/
theorem mergeSort_sorted_le (xs : List ℚ) :
    (xs.mergeSort (fun a b => a ≤ b)).Sorted (· ≤ ·) := by
  have h : List.Pairwise (fun a b : ℚ => (decide (a ≤ b)) = true)
      (xs.mergeSort (fun a b => a ≤ b)) :=
    List.sorted_mergeSort
      (fun a b c hab hbc => by
        simp only [decide_eq_true_eq] at *
        exact le_trans hab hbc)
      (fun a b => by
        simp only [Bool.or_eq_true, decide_eq_true_eq]
        exact le_total a b) xs
  exact h.imp (fun hab => by simpa using hab)

/-- Multiplying a sorted list by a nonnegative factor keeps it sorted. -/
theorem sorted_map_mul {k : ℚ} (hk : 0 ≤ k) {l : List ℚ}
    (h : l.Sorted (· ≤ ·)) : (l.map (fun x => k * x)).Sorted (· ≤ ·) := by
  rw [List.Sorted, List.pairwise_map]
  exact h.imp (fun hab => mul_le_mul_of_nonneg_left hab hk)

/-- Sorting commutes with multiplication by a nonnegative factor. -/
theorem mergeSort_map_mul (k : ℚ) (hk : 0 ≤ k) (xs : List ℚ) :
    (xs.map (fun x => k * x)).mergeSort (fun a b => a ≤ b)
      = (xs.mergeSort (fun a b => a ≤ b)).map (fun x => k * x) := by
  refine List.eq_of_perm_of_sorted ?_ (mergeSort_sorted_le _)
    (sorted_map_mul hk (mergeSort_sorted_le xs))
  exact (List.mergeSort_perm _ _).trans
    (((List.mergeSort_perm xs _).map _).symm)

/-- `getD` at default `0` commutes with multiplication of all entries. -/
theorem getD_map_mul (k : ℚ) (l : List ℚ) (i : ℕ) :
    (l.map (fun x => k * x)).getD i 0 = k * l.getD i 0 := by
  rw [List.getD_eq_getElem?_getD, List.getD_eq_getElem?_getD,
    List.getElem?_map]
  cases h : l[i]? with
  | none => simp
  | some v => simp

/-- Linear interpolation commutes with multiplication by a constant. -/
theorem interpolate_map_mul (k : ℚ) (s : List ℚ) (h : ℚ) :
    interpolate (s.map (fun x => k * x)) h = k * interpolate s h := by
  unfold interpolate
  rw [getD_map_mul, getD_map_mul]
  ring

/-- The numpy percentile is positively homogeneous in the data. -/
theorem npPercentile_map_mul (k : ℚ) (hk : 0 ≤ k) (xs : List ℚ) (q : ℚ) :
    npPercentile (xs.map (fun x => k * x)) q
      = (npPercentile xs q).map (fun v => k * v) := by
  unfold npPercentile
  rw [isEmpty_map]
  by_cases hc : xs.isEmpty = true ∨ q < 0 ∨ 100 < q
  · rw [if_pos hc, if_pos hc]
    rfl
  · rw [if_neg hc, if_neg hc, Option.map_some', List.length_map,
      mergeSort_map_mul k hk, interpolate_map_mul]

/-- The mean scales linearly with the data. -/
theorem mean_map_mul (k : ℚ) (xs : List ℚ) :
    mean (xs.map (fun x => k * x)) = k * mean xs := by
  unfold mean
  rw [List.length_map]
  rw [show (xs.map (fun x => k * x)).sum = k * xs.sum by
    simpa using List.sum_map_mul_left xs id k]
  rw [mul_div_assoc]

/-- The sample variance scales with the square of the factor. -/
theorem sampleVar_map_mul (k : ℚ) (xs : List ℚ) :
    sampleVar (xs.map (fun x => k * x)) = k ^ 2 * sampleVar xs := by
  unfold sampleVar
  rw [List.length_map, mean_map_mul, List.map_map]
  rw [show ((fun x => (x - k * mean xs) ^ 2) ∘ fun x => k * x)
      = fun x => k ^ 2 * ((x - mean xs) ^ 2) by
    funext x
    simp only [Function.comp_apply]
    ring]
  rw [show (xs.map (fun x => k ^ 2 * (x - mean xs) ^ 2)).sum
      = k ^ 2 * (xs.map (fun x => (x - mean xs) ^ 2)).sum from
    List.sum_map_mul_left xs _ _]
  rw [mul_div_assoc]

/-- The sample variance of at least two observations is nonnegative. -/
theorem sampleVar_nonneg (xs : List ℚ) (h : 2 ≤ xs.length) :
    0 ≤ sampleVar xs := by
  unfold sampleVar
  apply div_nonneg
  · apply List.sum_nonneg
    intro x hx
    obtain ⟨y, _, rfl⟩ := List.mem_map.mp hx
    positivity
  · have h2 : (2 : ℚ) ≤ (xs.length : ℚ) := by exact_mod_cast h
    linarith

/-- The portfolio with every allocation multiplied by `k`. -/
def scalePortfolio (k : ℚ) (p : Portfolio) : Portfolio :=
  ⟨p.positions.map (fun pos => ⟨pos.symbol, k * pos.allocation⟩)⟩

/-- Scaling the allocations leaves the symbol list unchanged. -/
theorem portfolioSymbols_scale (k : ℚ) (p : Portfolio) :
    portfolioSymbols (scalePortfolio k p) = portfolioSymbols p := by
  simp [portfolioSymbols, scalePortfolio, List.map_map, Function.comp_def]

/-- Scaling the allocations by `k` scales the portfolio daily-return series
pointwise by `k`. -/
theorem portReturnSeries_scale (k : ℚ) (md : MarketData) (p : Portfolio) :
    portReturnSeries md (scalePortfolio k p)
      = (portReturnSeries md p).map (fun x => k * x) := by
  rw [portReturnSeries_eq, portReturnSeries_eq, List.map_filterMap]
  congr 1
  funext t
  have hcond : (scalePortfolio k p).positions.all
        (fun pos => (retAt md (upper pos.symbol) t).isSome)
      = p.positions.all (fun pos => (retAt md (upper pos.symbol) t).isSome) := by
    simp [scalePortfolio, all_map_comp, Function.comp_def]
  have hval : ((scalePortfolio k p).positions.map (fun pos =>
        ((retAt md (upper pos.symbol) t).getD 0) * pos.allocation)).sum
      = k * ((p.positions.map (fun pos =>
        ((retAt md (upper pos.symbol) t).getD 0) * pos.allocation)).sum) := by
    rw [show (scalePortfolio k p).positions.map (fun pos =>
          ((retAt md (upper pos.symbol) t).getD 0) * pos.allocation)
        = p.positions.map (fun pos =>
          k * (((retAt md (upper pos.symbol) t).getD 0) * pos.allocation)) by
      simp only [scalePortfolio, List.map_map]
      exact List.map_congr_left (fun pos _ => by
        simp only [Function.comp_apply]
        ring)]
    exact List.sum_map_mul_left _ _ _
  rw [hcond]
  by_cases hall :
      p.positions.all (fun pos => (retAt md (upper pos.symbol) t).isSome)
  · rw [if_pos hall, if_pos hall, hval, Option.map_some']
  · rw [if_neg hall, if_neg hall, Option.map_none']

/-- C10: multiplying every allocation by a positive factor `k` multiplies the
portfolio daily-return series pointwise by `k`, and with it the value of
`calculate_historical_var` and of `calculate_daily_returns` (positive
homogeneity of VaR and volatility in the weights, error outcomes
unchanged). -/
theorem positive_homogeneity (p : Portfolio) (k : ℚ) (hk : 0 < k)
    (c : ℚ) (md : MarketData) :
    portReturnSeries md (scalePortfolio k p)
      = (portReturnSeries md p).map (fun x => k * x) ∧
    calculate_historical_var (scalePortfolio k p) c md
      = (calculate_historical_var p c md).map (fun v => k * v) ∧
    calculate_daily_returns (scalePortfolio k p) md
      = (calculate_daily_returns p md).map (fun v => (k : ℝ) * v) := by
  refine ⟨portReturnSeries_scale k md p, ?_, ?_⟩
  · rw [calculate_historical_var, calculate_historical_var,
      portfolioSymbols_scale, portReturnSeries_scale,
      npPercentile_map_mul k hk.le]
    by_cases he : (portfolioSymbols p).isEmpty
    · rw [if_pos he, if_pos he]
      rfl
    · rw [if_neg he, if_neg he]
      cases hq : npPercentile (portReturnSeries md p) ((1 - c) * 100) with
      | none => rfl
      | some v =>
        simp only [Option.map_some', Outcome.map]
        congr 1
        ring
  · rw [calculate_daily_returns, calculate_daily_returns,
      portfolioSymbols_scale, portReturnSeries_scale]
    by_cases he : (portfolioSymbols p).isEmpty
    · rw [if_pos he, if_pos he]
      rfl
    · rw [if_neg he, if_neg he, stdSqOutcome, stdSqOutcome, List.length_map]
      by_cases hl : 2 ≤ (portReturnSeries md p).length
      · rw [if_pos hl, if_pos hl, sampleVar_map_mul]
        simp only [Outcome.map]
        congr 1
        push_cast
        rw [Real.sqrt_mul (by positivity), Real.sqrt_sq (by exact_mod_cast hk.le)]
      · rw [if_neg hl, if_neg hl]
        rfl

/-- Witness for C10 at a concrete input: doubling every allocation of the
sample portfolio doubles the return series, the VaR and the volatility. -/
theorem positive_homogeneity_witness :
    portReturnSeries exMd (scalePortfolio 2 exP)
      = (portReturnSeries exMd exP).map (fun x => 2 * x) ∧
    calculate_historical_var (scalePortfolio 2 exP) (19/20) exMd
      = (calculate_historical_var exP (19/20) exMd).map (fun v => 2 * v) ∧
    calculate_daily_returns (scalePortfolio 2 exP) exMd
      = (calculate_daily_returns exP exMd).map (fun v => (2 : ℝ) * v) :=
  positive_homogeneity exP 2 (by norm_num) (19/20) exMd

/-- A one-position portfolio used for the percentile example. -/
def varP : Portfolio := ⟨[⟨"spy", 1⟩]⟩

/-- A market-data environment whose single symbol realizes the return series
`[-0.05, -0.02, 0.01, 0.03, 0.07]` of the specification's synthetic
percentile example. -/
def varMd : MarketData :=
  { numDates := 6,
    price := fun s t =>
      if s = "SPY" then
        [some 100, some 95, some (931/10), some (94031/1000),
          some (9685193/100000), some (1036315651/10000000)].getD t none
      else none }

/-- The close column of the percentile example evaluates to its price list. -/
theorem varMd_close : closeCol varMd "SPY"
    = [some 100, some 95, some (931/10), some (94031/1000),
        some (9685193/100000), some (1036315651/10000000)] := by
  simp [closeCol, varMd, show List.range 6 = [0, 1, 2, 3, 4, 5] by decide]

/-- The daily returns of the percentile example price column. -/
theorem varMd_pct : pctChange [some 100, some 95, some (931/10),
      some (94031/1000), some (9685193/100000), some (1036315651/10000000)]
    = [none, some (-(1/20)), some (-(1/50)), some (1/100), some (3/100),
        some (7/100)] := by
  norm_num [pctChange, ffillFrom]

/-- The portfolio return series of the percentile example. -/
theorem varSeries_eq : portReturnSeries varMd varP
    = [-(1/20), -(1/50), 1/100, 3/100, 7/100] := by
  rw [portReturnSeries, alignedReturnRows, returnCols,
    show portfolioSymbols varP = ["SPY"] by decide,
    show varMd.numDates = 6 from rfl,
    show List.range 6 = [0, 1, 2, 3, 4, 5] by decide]
  rw [List.map_cons, List.map_nil, varMd_close, varMd_pct]
  simp only [optionRow, List.filterMap_cons, List.filterMap_nil]
  norm_num [dot, portfolioAllocations, varP]

/-- C3: for a confidence level in `(0, 1)` and a nonempty aligned return
series, `calculate_historical_var` returns exactly the negation of the
`(1-c)*100`-th percentile of the weighted-sum portfolio daily return series,
computed by linear interpolation between order statistics of the sorted
series at fractional rank `(1-c)*100/100 * (n-1)`. -/
theorem historical_var_percentile (p : Portfolio) (c : ℚ) (md : MarketData)
    (hp : p.positions ≠ []) (h0 : 0 < c) (h1 : c < 1)
    (hne : portReturnSeries md p ≠ []) :
    ∃ s : List ℚ, s.Perm (portReturnSeries md p) ∧ s.Sorted (· ≤ ·) ∧
      calculate_historical_var p c md
        = .ok (-(interpolate s ((1 - c) * 100 / 100
            * (((portReturnSeries md p).length : ℚ) - 1)))) := by
  refine ⟨(portReturnSeries md p).mergeSort (fun a b => a ≤ b),
    List.mergeSort_perm _ _, mergeSort_sorted_le _, ?_⟩
  have hsym : ¬ ((portfolioSymbols p).isEmpty = true) := by
    simp [portfolioSymbols, List.isEmpty_iff, hp]
  have hq : ¬ ((portReturnSeries md p).isEmpty = true
      ∨ (1 - c) * 100 < 0 ∨ 100 < (1 - c) * 100) := by
    push_neg
    refine ⟨by simp only [ne_eq, List.isEmpty_iff]; exact hne,
      by linarith, by linarith⟩
  rw [calculate_historical_var, if_neg hsym, npPercentile, if_neg hq]

/-- Witness for C3 at the specification's synthetic example: a single-symbol
portfolio realizing the return series `[-0.05, -0.02, 0.01, 0.03, 0.07]` at
confidence `0.95`. -/
theorem historical_var_percentile_witness :
    ∃ s : List ℚ, s.Perm (portReturnSeries varMd varP) ∧ s.Sorted (· ≤ ·) ∧
      calculate_historical_var varP (19/20) varMd
        = .ok (-(interpolate s ((1 - 19/20) * 100 / 100
            * (((portReturnSeries varMd varP).length : ℚ) - 1)))) :=
  historical_var_percentile varP (19/20) varMd (by decide)
    (by norm_num) (by norm_num) (by rw [varSeries_eq]; decide)

/-- Bit-for-bit value of the specification's synthetic percentile example:
the 95 percent historical VaR of the return series
`[-0.05, -0.02, 0.01, 0.03, 0.07]` is exactly `0.044`. -/
theorem historical_var_example_value :
    calculate_historical_var varP (19/20) varMd = .ok (11/250) := by
  rw [calculate_historical_var,
    if_neg (by simp [portfolioSymbols, List.isEmpty_iff, varP]),
    varSeries_eq]
  norm_num [npPercentile, interpolate, List.mergeSort]

/-- Counterexample to C8: on a portfolio whose single symbol only rose over
the sample (returns `[0.01, 1/101]`, all positive), the value returned by
`calculate_historical_var` at confidence `0.95` is negative, not positive. -/
theorem historical_var_not_positive_cex :
    calculate_historical_var ⟨[⟨"NVDA", 1⟩]⟩ (19/20) exMd
      = .ok (-(2001/202000)) ∧ ¬ ((0 : ℚ) < -(2001/202000)) := by
  constructor
  · rw [calculate_historical_var,
      if_neg (by simp [portfolioSymbols, List.isEmpty_iff])]
    rw [show portReturnSeries exMd ⟨[⟨"NVDA", 1⟩]⟩ = [1/100, 1/101] by
      rw [portReturnSeries, alignedReturnRows, returnCols,
        show portfolioSymbols ⟨[⟨"NVDA", 1⟩]⟩ = ["NVDA"] by decide,
        show exMd.numDates = 3 from rfl,
        show List.range 3 = [0, 1, 2] by decide]
      rw [List.map_cons, List.map_nil,
        show closeCol exMd "NVDA" = [some 200, some 202, some 204] by
          simp [closeCol, exMd, show List.range 3 = [0, 1, 2] by decide]]
      rw [show pctChange [some 200, some 202, some 204]
          = [none, some (1/100), some (1/101)] by
        norm_num [pctChange, ffillFrom]]
      simp only [optionRow, List.filterMap_cons, List.filterMap_nil]
      norm_num [dot, portfolioAllocations]]
    norm_num [npPercentile, interpolate, List.mergeSort]
  · norm_num

/-- C8 amended: for a valid confidence level and a nonempty aligned return
series the returned VaR is the negation of the `(1-c)*100`-th percentile of
the series, so it is positive exactly when that percentile is negative; it is
not positive for every input. -/
theorem historical_var_sign (p : Portfolio) (c : ℚ) (md : MarketData)
    (hp : p.positions ≠ []) (h0 : 0 < c) (h1 : c < 1)
    (hne : portReturnSeries md p ≠ []) :
    ∃ w : ℚ, npPercentile (portReturnSeries md p) ((1 - c) * 100) = some w ∧
      calculate_historical_var p c md = .ok (-w) ∧ (0 < -w ↔ w < 0) := by
  have hsym : ¬ ((portfolioSymbols p).isEmpty = true) := by
    simp [portfolioSymbols, List.isEmpty_iff, hp]
  have hq : ¬ ((portReturnSeries md p).isEmpty = true
      ∨ (1 - c) * 100 < 0 ∨ 100 < (1 - c) * 100) := by
    push_neg
    refine ⟨by simp only [ne_eq, List.isEmpty_iff]; exact hne,
      by linarith, by linarith⟩
  refine ⟨interpolate ((portReturnSeries md p).mergeSort (fun a b => a ≤ b))
    ((1 - c) * 100 / 100 * (((portReturnSeries md p).length : ℚ) - 1)),
    by rw [npPercentile, if_neg hq], ?_, neg_pos⟩
  rw [calculate_historical_var, if_neg hsym, npPercentile, if_neg hq]

/-- Witness for the amended C8 at the synthetic example portfolio, whose
return sample has a negative lower tail and hence a positive VaR. -/
theorem historical_var_sign_witness :
    ∃ w : ℚ, npPercentile (portReturnSeries varMd varP)
        ((1 - 19/20) * 100) = some w ∧
      calculate_historical_var varP (19/20) varMd = .ok (-w) ∧
      (0 < -w ↔ w < 0) :=
  historical_var_sign varP (19/20) varMd (by decide) (by norm_num)
    (by norm_num) (by rw [varSeries_eq]; decide)

/-- The AAPL return column of the sample environment. -/
theorem exMd_aapl_pct : pctChange (closeCol exMd "AAPL")
    = [none, some (1/10), some (-(1/22))] := by
  rw [show closeCol exMd "AAPL" = [some 100, some 110, some 105] by
    simp [closeCol, exMd, show List.range 3 = [0, 1, 2] by decide]]
  norm_num [pctChange, ffillFrom]

/-- The NVDA return column of the sample environment. -/
theorem exMd_nvda_pct : pctChange (closeCol exMd "NVDA")
    = [none, some (1/100), some (1/101)] := by
  rw [show closeCol exMd "NVDA" = [some 200, some 202, some 204] by
    simp [closeCol, exMd, show List.range 3 = [0, 1, 2] by decide]]
  norm_num [pctChange, ffillFrom]

/-- The benchmark return column of the sample environment. -/
theorem exMd_gspc_pct : pctChange (closeCol exMd "^GSPC")
    = [none, some (1/10), some (1/5)] := by
  rw [show closeCol exMd "^GSPC" = [some 50, some 55, some 66] by
    simp [closeCol, exMd, show List.range 3 = [0, 1, 2] by decide]]
  norm_num [pctChange, ffillFrom]

/-- The portfolio return series of the sample portfolio on the sample
environment. -/
theorem exSeries_eq : portReturnSeries exMd exP
    = [31/400, -(281/8888)] := by
  rw [portReturnSeries, alignedReturnRows, returnCols,
    show portfolioSymbols exP = ["AAPL", "NVDA"] by decide,
    show exMd.numDates = 3 from rfl,
    show List.range 3 = [0, 1, 2] by decide]
  rw [List.map_cons, List.map_cons, List.map_nil, exMd_aapl_pct, exMd_nvda_pct]
  simp only [optionRow, List.filterMap_cons, List.filterMap_nil]
  norm_num [dot, portfolioAllocations, exP]

/-- C6: with a nonempty portfolio and at least two aligned return dates,
`calculate_daily_returns` returns the sample standard deviation of the
weighted portfolio daily return series: a nonnegative real whose square is
exactly `Σ (x - mean)² / (n - 1)` — divisor `n - 1`, not `n`, and with no
annualization factor. -/
theorem daily_returns_sample_std (p : Portfolio) (md : MarketData)
    (hp : p.positions ≠ []) (hlen : 2 ≤ (portReturnSeries md p).length) :
    ∃ r : ℝ, calculate_daily_returns p md = .ok r ∧ 0 ≤ r ∧
      r ^ 2 = ((((portReturnSeries md p).map (fun x =>
          (x - (portReturnSeries md p).sum
            / ((portReturnSeries md p).length : ℚ)) ^ 2)).sum
        / (((portReturnSeries md p).length : ℚ) - 1) : ℚ) : ℝ) := by
  have hsym : ¬ ((portfolioSymbols p).isEmpty = true) := by
    simp [portfolioSymbols, List.isEmpty_iff, hp]
  refine ⟨Real.sqrt ((sampleVar (portReturnSeries md p) : ℚ) : ℝ), ?_,
    Real.sqrt_nonneg _, ?_⟩
  · rw [calculate_daily_returns, if_neg hsym, stdSqOutcome, if_pos hlen]
    rfl
  · rw [Real.sq_sqrt (by exact_mod_cast sampleVar_nonneg _ hlen)]
    rfl

/-- Witness for C6 at the sample portfolio, whose aligned return series has
exactly two dates. -/
theorem daily_returns_sample_std_witness :
    ∃ r : ℝ, calculate_daily_returns exP exMd = .ok r ∧ 0 ≤ r ∧
      r ^ 2 = ((((portReturnSeries exMd exP).map (fun x =>
          (x - (portReturnSeries exMd exP).sum
            / ((portReturnSeries exMd exP).length : ℚ)) ^ 2)).sum
        / (((portReturnSeries exMd exP).length : ℚ) - 1) : ℚ) : ℝ) :=
  daily_returns_sample_std exP exMd (by decide)
    (by rw [exSeries_eq]; decide)

/-- Filtering through an `if`-valued `filterMap` is filtering. -/
theorem filterMap_if_eq_filter {α : Type} (q : α → Bool) (l : List α) :
    (l.filterMap (fun a => if q a then some a else none)) = l.filter q := by
  induction l with
  | nil => rfl
  | cons x xs ih =>
    by_cases h : q x <;> simp [List.filterMap_cons, List.filter_cons, h, ih]

/-- Joint availability over the combined download list, in per-position
form. -/
theorem betaDownloadList_all_eq (md : MarketData) (p : Portfolio) (t : ℕ) :
    (betaDownloadList p).all (fun s => (retAt md s t).isSome)
      = ((p.positions.all
            (fun pos => (retAt md (upper pos.symbol) t).isSome))
          && (retAt md MARKET_TICKER t).isSome) := by
  rw [betaDownloadList, List.all_append, List.all_cons, List.all_nil,
    Bool.and_true, portfolioSymbols, all_map_comp]

/-- C5: `beta_calculation` downloads the portfolio's symbols plus the fixed
benchmark in one combined list (`betaDownloadList`), aligns the return
columns jointly — a date survives exactly when every downloaded symbol,
benchmark included, has a return on it — and, given at least two aligned
dates and a nonzero benchmark sample variance, returns the `ddof = 1` sample
covariance of the portfolio and benchmark return series divided by the
`ddof = 1` sample variance of the benchmark return series. -/
theorem beta_spec (p : Portfolio) (md : MarketData)
    (hlen : 2 ≤ (betaAlignedRows md p).length)
    (hvar : sampleVar ((betaAlignedRows md p).map (fun x => x.2.2)) ≠ 0) :
    beta_calculation p md
      = .ok (sampleCov ((betaAlignedRows md p).map (fun x => x.2.1))
              ((betaAlignedRows md p).map (fun x => x.2.2))
          / sampleVar ((betaAlignedRows md p).map (fun x => x.2.2))) ∧
    (betaAlignedRows md p).map (fun x => x.1)
      = (List.range md.numDates).filter
          (fun t => (betaDownloadList p).all
            (fun s => (retAt md s t).isSome)) := by
  constructor
  · simp only [beta_calculation]
    rw [seriesCov, if_pos ⟨by simpa using hlen, by simpa using hlen⟩,
      seriesVar, if_pos (by simpa using hlen)]
    exact if_neg hvar
  · have hfun : ∀ t, Option.map (fun x : ℕ × ℚ × ℚ => x.1)
        (if ((p.positions.all
              (fun pos => (retAt md (upper pos.symbol) t).isSome))
            && (retAt md MARKET_TICKER t).isSome)
         then some (t, (p.positions.map (fun pos =>
            ((retAt md (upper pos.symbol) t).getD 0) * pos.allocation)).sum,
            (retAt md MARKET_TICKER t).getD 0)
         else none)
        = if (betaDownloadList p).all (fun s => (retAt md s t).isSome)
          then some t else none := by
      intro t
      rw [betaDownloadList_all_eq]
      by_cases h : ((p.positions.all
            (fun pos => (retAt md (upper pos.symbol) t).isSome))
          && (retAt md MARKET_TICKER t).isSome) = true
      · rw [if_pos h, if_pos h, Option.map_some']
      · rw [if_neg h, if_neg h, Option.map_none']
    rw [betaAlignedRows_eq, List.map_filterMap]
    exact (congrArg (fun f => List.filterMap f (List.range md.numDates))
      (funext hfun)).trans (filterMap_if_eq_filter _ _)

/-- The aligned rows of `beta_calculation` on the sample portfolio and
environment: two surviving dates with their weighted portfolio returns and
benchmark returns. -/
theorem exRows_eq : betaAlignedRows exMd exP
    = [(1, 31/400, 1/10), (2, -(281/8888), 1/5)] := by
  rw [betaAlignedRows_eq,
    show exMd.numDates = 3 from rfl,
    show List.range 3 = [0, 1, 2] by decide,
    show exP.positions = [⟨"aapl", 3/4⟩, ⟨"NVDA", 1/4⟩] from rfl]
  simp only [List.all_cons, List.all_nil, List.map_cons, List.map_nil,
    List.filterMap_cons, List.filterMap_nil, retAt,
    show upper "aapl" = "AAPL" by decide,
    show upper "NVDA" = "NVDA" by decide, MARKET_TICKER,
    exMd_aapl_pct, exMd_nvda_pct, exMd_gspc_pct]
  norm_num

/-- Witness for C5 at the sample portfolio: two aligned dates, nonzero
benchmark variance. -/
theorem beta_spec_witness :
    beta_calculation exP exMd
      = .ok (sampleCov ((betaAlignedRows exMd exP).map (fun x => x.2.1))
              ((betaAlignedRows exMd exP).map (fun x => x.2.2))
          / sampleVar ((betaAlignedRows exMd exP).map (fun x => x.2.2))) ∧
    (betaAlignedRows exMd exP).map (fun x => x.1)
      = (List.range exMd.numDates).filter
          (fun t => (betaDownloadList exP).all
            (fun s => (retAt exMd s t).isSome)) :=
  beta_spec exP exMd (by rw [exRows_eq]; decide)
    (by rw [exRows_eq]; norm_num [sampleVar, mean])

/-- Forward fill does nothing on a column of present values. -/
theorem ffillFrom_all_isSome (c : Col)
    (h : c.all (fun x => x.isSome) = true) (acc : Option ℚ) :
    ffillFrom acc c = c := by
  induction c generalizing acc with
  | nil => rfl
  | cons x xs ih =>
    rw [List.all_cons, Bool.and_eq_true] at h
    cases x with
    | none => simp at h
    | some v => simp [ffillFrom, ih h.2]

/-- Forward fill from an empty accumulator does nothing on a hole-free
column. -/
theorem ffillFrom_holeFree (c : Col) (h : holeFree c = true) :
    ffillFrom none c = c := by
  induction c with
  | nil => rfl
  | cons x xs ih =>
    cases x with
    | none =>
      have h' : holeFree xs = true := by
        simpa [holeFree, List.dropWhile_cons] using h
      simp [ffillFrom, ih h']
    | some v =>
      have h' : xs.all (fun x => x.isSome) = true := by
        have := h
        rw [holeFree, List.dropWhile_cons] at this
        simpa using this
      simp [ffillFrom, ffillFrom_all_isSome xs h' (some v)]

/-- Length of a downloaded close column. -/
theorem closeCol_length (md : MarketData) (s : String) :
    (closeCol md s).length = md.numDates := by
  simp [closeCol]

/-- A close column reads back the environment's price inside the range. -/
theorem closeCol_getD (md : MarketData) (s : String) (t : ℕ)
    (ht : t < md.numDates) :
    (closeCol md s).getD t none = md.price s t := by
  rw [closeCol, List.getD_eq_getElem?_getD, List.getElem?_map,
    List.getElem?_range ht]
  rfl

/-- On a hole-free column, `pct_change` at an in-range index is the plain
one-period percentage change: undefined at index `0` and whenever either of
the two consecutive prices is missing. -/
theorem pctChange_getD (c : Col) (hc : holeFree c = true) (t : ℕ)
    (ht : t < c.length) :
    (pctChange c).getD t none
      = if t = 0 then none
        else match c.getD (t-1) none, c.getD t none with
          | some a, some b => some (b / a - 1)
          | _, _ => none := by
  cases c with
  | nil => simp at ht
  | cons x xs =>
    have hf := ffillFrom_holeFree (x :: xs) hc
    simp only [pctChange, hf]
    cases t with
    | zero => simp
    | succ k =>
      rw [if_neg (by omega), List.getD_cons_succ,
        List.getD_eq_getElem?_getD, List.getElem?_zipWith]
      have hk : k < (x :: xs).length := by omega
      have hk' : k < xs.length ∨ xs[k]? = none := by
        by_cases h : k < xs.length
        · exact Or.inl h
        · exact Or.inr (List.getElem?_eq_none_iff.mpr (by omega))
      have h1 : (x :: xs)[k]? = some ((x :: xs).getD k none) := by
        rw [List.getD_eq_getElem?_getD, List.getElem?_eq_getElem hk]
        rfl
      have h2 : (x :: xs).tail[k]? = some ((x :: xs).getD (k+1) none) := by
        rw [List.getD_eq_getElem?_getD]
        show xs[k]? = some ((x :: xs)[k+1]?.getD none)
        rw [List.getElem?_cons_succ,
          List.getElem?_eq_getElem (by simpa using ht)]
        rfl
      rw [h1, h2]
      simp only [Nat.add_sub_cancel, Option.getD_some]

/-- A market-data environment with a single symbol whose price is missing on
the middle one of three dates. -/
def gapMd : MarketData :=
  { numDates := 3,
    price := fun s t =>
      if s = "GAP" then [some 100, none, some 110].getD t none
      else none }

/-- Counterexample to C4: with an interior missing price the builder
forward-fills rather than dropping.  Date 1, on which the only requested
symbol has no price — hence no defined return `price[1]/price[0] - 1` —
survives in the aligned return table with a padded return of `0`, and date 2
survives with a return computed against the forward-filled price. -/
theorem return_builder_pad_cex :
    alignedReturnRows gapMd ["GAP"] = [(1, [0]), (2, [1/10])] ∧
    gapMd.price "GAP" 1 = none := by
  constructor
  · rw [alignedReturnRows, returnCols,
      show gapMd.numDates = 3 from rfl,
      show List.range 3 = [0, 1, 2] by decide, List.map_cons, List.map_nil,
      show pctChange (closeCol gapMd "GAP") = [none, some 0, some (1/10)] by
        rw [show closeCol gapMd "GAP" = [some 100, none, some 110] by
          simp [closeCol, gapMd, show List.range 3 = [0, 1, 2] by decide]]
        norm_num [pctChange, ffillFrom]]
    simp only [optionRow, List.filterMap_cons, List.filterMap_nil]
    norm_num
  · rfl

/-- Pointwise-equal predicates take `List.all` to the same value. -/
theorem all_congr_mem {α : Type} {l : List α} {f g : α → Bool}
    (h : ∀ a ∈ l, f a = g a) : l.all f = l.all g := by
  induction l with
  | nil => rfl
  | cons x xs ih =>
    rw [List.all_cons, List.all_cons, h x (by simp),
      ih (fun a ha => h a (by simp [ha]))]

/-- C4 amended: when every requested close column is hole-free (missing
prices only at the start of a series, as with symbols that begin trading
later), the aligned return table contains exactly the dates at which every
symbol has a defined return — a predecessor date and both consecutive prices
present — with the value `price[t]/price[t-1] - 1` per symbol.  With an
interior gap the builder forward-fills instead of dropping the row (see the
counterexample), so the hole-free hypothesis cannot be removed. -/
theorem return_builder_aligned (md : MarketData) (symbols : List String)
    (hs : symbols ≠ [])
    (hhf : ∀ s ∈ symbols, holeFree (closeCol md s) = true) :
    alignedReturnRows md symbols
      = (List.range md.numDates).filterMap (fun t =>
          if 0 < t ∧ ∀ s ∈ symbols,
              (md.price s (t-1)).isSome ∧ (md.price s t).isSome
          then some (t, symbols.map (fun s =>
            (md.price s t).getD 0 / (md.price s (t-1)).getD 0 - 1))
          else none) := by
  rw [alignedReturnRows]
  refine List.filterMap_congr (fun t htm => ?_)
  have ht : t < md.numDates := List.mem_range.mp htm
  have hret : ∀ s ∈ symbols, (pctChange (closeCol md s)).getD t none
      = if t = 0 then none
        else match md.price s (t-1), md.price s t with
          | some a, some b => some (b / a - 1)
          | _, _ => none := by
    intro s hsm
    rw [pctChange_getD _ (hhf s hsm) t (by rw [closeCol_length]; exact ht)]
    by_cases h0 : t = 0
    · rw [if_pos h0, if_pos h0]
    · rw [if_neg h0, if_neg h0,
        closeCol_getD md s (t-1) (by omega), closeCol_getD md s t ht]
  rw [optionRow]
  rw [show (returnCols md symbols).all (fun c => (c.getD t none).isSome)
      = symbols.all
          (fun s => ((pctChange (closeCol md s)).getD t none).isSome) by
    rw [returnCols, all_map_comp]]
  by_cases h0 : t = 0
  · subst h0
    rw [show symbols.all (fun s =>
          ((pctChange (closeCol md s)).getD 0 none).isSome) = false by
      cases symbols with
      | nil => exact absurd rfl hs
      | cons a l =>
        rw [List.all_cons, hret a (by simp), if_pos rfl]
        rfl]
    rw [if_neg (by simp), Option.map_none',
      if_neg (fun h => absurd h.1 (lt_irrefl 0))]
  · have hcond : symbols.all
        (fun s => ((pctChange (closeCol md s)).getD t none).isSome)
      = symbols.all
          (fun s => (md.price s (t-1)).isSome && (md.price s t).isSome) := by
      refine all_congr_mem (fun s hsm => ?_)
      rw [hret s hsm, if_neg h0]
      cases md.price s (t-1) <;> cases md.price s t <;> rfl
    rw [hcond]
    by_cases hall : symbols.all
        (fun s => (md.price s (t-1)).isSome && (md.price s t).isSome)
    · rw [if_pos hall, Option.map_some',
        if_pos ⟨by omega, fun s hsm => by
          have h12 := List.all_eq_true.mp hall s hsm
          rw [Bool.and_eq_true] at h12
          exact h12⟩]
      congr 2
      rw [returnCols, List.map_map]
      refine List.map_congr_left (fun s hsm => ?_)
      have h12 := List.all_eq_true.mp hall s hsm
      rw [Bool.and_eq_true] at h12
      obtain ⟨a, ha⟩ := Option.isSome_iff_exists.mp h12.1
      obtain ⟨b, hb⟩ := Option.isSome_iff_exists.mp h12.2
      show ((pctChange (closeCol md s)).getD t none).getD 0
        = (md.price s t).getD 0 / (md.price s (t-1)).getD 0 - 1
      rw [hret s hsm, if_neg h0, ha, hb]
      rfl
    · rw [if_neg hall, Option.map_none',
        if_neg (fun hcon => hall (List.all_eq_true.mpr (fun s hsm => by
          rw [Bool.and_eq_true]
          exact ⟨(hcon.2 s hsm).1, (hcon.2 s hsm).2⟩)))]

/-- A market-data environment in which the second symbol starts trading one
date later than the first (a leading missing value, no interior gap). -/
def leadMd : MarketData :=
  { numDates := 3,
    price := fun s t =>
      if s = "AAA" then [some 100, some 110, some 121].getD t none
      else if s = "BBB" then [none, some 50, some 55].getD t none
      else none }

/-- Witness for the amended C4: on the hole-free two-symbol environment with
one leading missing value, the aligned return table is exactly the
row-intersection of defined returns. -/
theorem return_builder_aligned_witness :
    alignedReturnRows leadMd ["AAA", "BBB"]
      = (List.range leadMd.numDates).filterMap (fun t =>
          if 0 < t ∧ ∀ s ∈ ["AAA", "BBB"],
              (leadMd.price s (t-1)).isSome ∧ (leadMd.price s t).isSome
          then some (t, ["AAA", "BBB"].map (fun s =>
            (leadMd.price s t).getD 0 / (leadMd.price s (t-1)).getD 0 - 1))
          else none) :=
  return_builder_aligned leadMd ["AAA", "BBB"] (by decide) (by decide)

/-- Every outcome of `calculate_historical_var` is a raised exception or a
returned value: no typed error and no NaN is ever produced. -/
theorem historical_var_outcomes (p : Portfolio) (c : ℚ) (md : MarketData) :
    calculate_historical_var p c md = .raised ∨
      ∃ v, calculate_historical_var p c md = .ok v := by
  rw [calculate_historical_var]
  by_cases he : (portfolioSymbols p).isEmpty = true
  · rw [if_pos he]
    exact Or.inl rfl
  · rw [if_neg he]
    cases npPercentile (portReturnSeries md p) ((1 - c) * 100) with
    | none => exact Or.inl rfl
    | some v => exact Or.inr ⟨-v, rfl⟩

/-- Every outcome of `calculate_daily_returns` is a raised exception, a NaN,
or a returned value: no typed error is ever produced. -/
theorem daily_returns_outcomes (p : Portfolio) (md : MarketData) :
    calculate_daily_returns p md = .raised ∨
    calculate_daily_returns p md = .nan ∨
      ∃ r, calculate_daily_returns p md = .ok r := by
  rw [calculate_daily_returns]
  by_cases he : (portfolioSymbols p).isEmpty = true
  · rw [if_pos he]
    exact Or.inl rfl
  · rw [if_neg he, stdSqOutcome]
    by_cases hl : 2 ≤ (portReturnSeries md p).length
    · rw [if_pos hl]
      exact Or.inr (Or.inr ⟨_, rfl⟩)
    · rw [if_neg hl]
      exact Or.inr (Or.inl rfl)

/-- Every outcome of `beta_calculation` is a NaN or a returned value: no
typed error is ever produced. -/
theorem beta_outcomes (p : Portfolio) (md : MarketData) :
    beta_calculation p md = .nan ∨ ∃ v, beta_calculation p md = .ok v := by
  simp only [beta_calculation]
  cases seriesCov ((betaAlignedRows md p).map (fun x => x.2.1))
      ((betaAlignedRows md p).map (fun x => x.2.2)) with
  | none => exact Or.inl rfl
  | some cv =>
    cases seriesVar ((betaAlignedRows md p).map (fun x => x.2.2)) with
    | none => exact Or.inl rfl
    | some v =>
      by_cases hv : v = 0
      · exact Or.inl (by
          show (if v = 0 then Outcome.nan else Outcome.ok (cv / v))
            = Outcome.nan
          rw [if_pos hv])
      · exact Or.inr ⟨cv / v, by
          show (if v = 0 then Outcome.nan else Outcome.ok (cv / v))
            = Outcome.ok (cv / v)
          rw [if_neg hv]⟩

/-- A one-position portfolio for the insufficient-data scenario. -/
def cP : Portfolio := ⟨[⟨"AAPL", 1⟩]⟩

/-- A market-data environment with only two dates, so that exactly one
aligned return date survives. -/
def cMd : MarketData :=
  { numDates := 2,
    price := fun s t =>
      if s = "AAPL" then [some 100, some 110].getD t none
      else if s = "^GSPC" then [some 200, some 220].getD t none
      else none }

/-- The AAPL return column of the two-date environment. -/
theorem cMd_aapl_pct : pctChange (closeCol cMd "AAPL")
    = [none, some (1/10)] := by
  rw [show closeCol cMd "AAPL" = [some 100, some 110] by
    simp [closeCol, cMd, show List.range 2 = [0, 1] by decide]]
  norm_num [pctChange, ffillFrom]

/-- The benchmark return column of the two-date environment. -/
theorem cMd_gspc_pct : pctChange (closeCol cMd "^GSPC")
    = [none, some (1/10)] := by
  rw [show closeCol cMd "^GSPC" = [some 200, some 220] by
    simp [closeCol, cMd, show List.range 2 = [0, 1] by decide]]
  norm_num [pctChange, ffillFrom]

/-- The one-date portfolio return series of the two-date environment. -/
theorem cSeries_eq : portReturnSeries cMd cP = [1/10] := by
  rw [portReturnSeries, alignedReturnRows, returnCols,
    show portfolioSymbols cP = ["AAPL"] by decide,
    show cMd.numDates = 2 from rfl,
    show List.range 2 = [0, 1] by decide]
  rw [List.map_cons, List.map_nil, cMd_aapl_pct]
  simp only [optionRow, List.filterMap_cons, List.filterMap_nil]
  norm_num [dot, portfolioAllocations, cP]

/-- The one-row aligned table of `beta_calculation` on the two-date
environment. -/
theorem cRows_eq : betaAlignedRows cMd cP = [(1, 1/10, 1/10)] := by
  rw [betaAlignedRows_eq,
    show cMd.numDates = 2 from rfl,
    show List.range 2 = [0, 1] by decide,
    show cP.positions = [⟨"AAPL", 1⟩] from rfl]
  simp only [List.all_cons, List.all_nil, List.map_cons, List.map_nil,
    List.filterMap_cons, List.filterMap_nil, retAt,
    show upper "AAPL" = "AAPL" by decide, MARKET_TICKER,
    cMd_aapl_pct, cMd_gspc_pct]
  norm_num

/-- Counterexample to C2: on a two-date price table the aligned return series
has exactly one date, yet no operation fails with a DataUnavailableError:
`calculate_historical_var` returns an ordinary value (the negated single
return), and `calculate_daily_returns` and `beta_calculation` return NaN. -/
theorem insufficient_data_cex :
    (portReturnSeries cMd cP).length = 1 ∧
    calculate_historical_var cP (19/20) cMd = .ok (-(1/10)) ∧
    calculate_daily_returns cP cMd = .nan ∧
    beta_calculation cP cMd = .nan ∧
    calculate_historical_var cP (19/20) cMd ≠ .dataUnavailableError ∧
    calculate_daily_returns cP cMd ≠ .dataUnavailableError ∧
    beta_calculation cP cMd ≠ .dataUnavailableError := by
  have hvar : calculate_historical_var cP (19/20) cMd = .ok (-(1/10)) := by
    rw [calculate_historical_var,
      if_neg (by simp [portfolioSymbols, List.isEmpty_iff, cP]), cSeries_eq]
    norm_num [npPercentile, interpolate, List.mergeSort]
  have hvol : calculate_daily_returns cP cMd = .nan := by
    rw [calculate_daily_returns,
      if_neg (by simp [portfolioSymbols, List.isEmpty_iff, cP]), cSeries_eq]
    rfl
  have hbeta : beta_calculation cP cMd = .nan := by
    simp only [beta_calculation]
    rw [cRows_eq]
    rfl
  exact ⟨by rw [cSeries_eq]; rfl, hvar, hvol, hbeta,
    by rw [hvar]; exact fun h => Outcome.noConfusion h,
    by rw [hvol]; exact fun h => Outcome.noConfusion h,
    by rw [hbeta]; exact fun h => Outcome.noConfusion h⟩

/-- C2 amended: with fewer than two aligned dates no operation produces a
DataUnavailableError (the code has no such error type): volatility and beta
return NaN; historical VaR raises an unstructured numpy error on an empty
series and returns the negated single return when exactly one date
survives. -/
theorem insufficient_data_behavior (p : Portfolio) (c : ℚ) (md : MarketData)
    (hp : p.positions ≠ []) (h0 : 0 < c) (h1 : c < 1)
    (hvlen : (portReturnSeries md p).length < 2)
    (hblen : (betaAlignedRows md p).length < 2) :
    calculate_daily_returns p md = .nan ∧
    beta_calculation p md = .nan ∧
    (portReturnSeries md p = [] →
      calculate_historical_var p c md = .raised) ∧
    (∀ x : ℚ, portReturnSeries md p = [x] →
      calculate_historical_var p c md = .ok (-x)) ∧
    calculate_historical_var p c md ≠ .dataUnavailableError ∧
    calculate_daily_returns p md ≠ .dataUnavailableError ∧
    beta_calculation p md ≠ .dataUnavailableError := by
  have hsym : ¬ ((portfolioSymbols p).isEmpty = true) := by
    simp [portfolioSymbols, List.isEmpty_iff, hp]
  have hvol : calculate_daily_returns p md = .nan := by
    rw [calculate_daily_returns, if_neg hsym, stdSqOutcome,
      if_neg (by omega)]
    rfl
  have hbeta : beta_calculation p md = .nan := by
    simp only [beta_calculation]
    rw [seriesCov, if_neg (by
      simp only [List.length_map]
      omega)]
  refine ⟨hvol, hbeta, ?_, ?_, ?_, ?_, ?_⟩
  · intro hx
    rw [calculate_historical_var, if_neg hsym, hx]
    rfl
  · intro x hx
    have hcnd : ¬ (([x] : List ℚ).isEmpty = true
        ∨ (1 - c) * 100 < 0 ∨ 100 < (1 - c) * 100) := by
      push_neg
      exact ⟨by simp, by linarith, by linarith⟩
    rw [calculate_historical_var, if_neg hsym, hx, npPercentile,
      if_neg hcnd]
    rw [show ([x].mergeSort (fun a b => a ≤ b)) = [x] by
      simp [List.mergeSort]]
    norm_num [interpolate]
  · rcases historical_var_outcomes p c md with h | ⟨v, h⟩ <;> rw [h] <;>
      exact fun hh => Outcome.noConfusion hh
  · rw [hvol]
    exact fun hh => Outcome.noConfusion hh
  · rw [hbeta]
    exact fun hh => Outcome.noConfusion hh

/-- Witness for the amended C2 at the two-date environment. -/
theorem insufficient_data_behavior_witness :
    calculate_daily_returns cP cMd = .nan ∧
    beta_calculation cP cMd = .nan ∧
    (portReturnSeries cMd cP = [] →
      calculate_historical_var cP (19/20) cMd = .raised) ∧
    (∀ x : ℚ, portReturnSeries cMd cP = [x] →
      calculate_historical_var cP (19/20) cMd = .ok (-x)) ∧
    calculate_historical_var cP (19/20) cMd ≠ .dataUnavailableError ∧
    calculate_daily_returns cP cMd ≠ .dataUnavailableError ∧
    beta_calculation cP cMd ≠ .dataUnavailableError :=
  insufficient_data_behavior cP (19/20) cMd (by decide) (by norm_num)
    (by norm_num) (by rw [cSeries_eq]; decide) (by rw [cRows_eq]; decide)

/-- Counterexample to C9: an empty portfolio is not rejected with an
InputError — both VaR and volatility proceed past extraction and fail with an
unstructured exception at the `df["Close"]` lookup on the empty download —
and an out-of-range confidence level is not rejected either: it propagates to
the percentile computation, which raises after the fetch. -/
theorem no_input_validation_cex :
    calculate_historical_var ⟨[]⟩ (19/20) cMd = .raised ∧
    calculate_historical_var ⟨[]⟩ (19/20) cMd ≠ .inputError ∧
    calculate_daily_returns ⟨[]⟩ cMd = .raised ∧
    calculate_daily_returns ⟨[]⟩ cMd ≠ .inputError ∧
    calculate_historical_var cP 2 cMd = .raised ∧
    calculate_historical_var cP 2 cMd ≠ .inputError := by
  have hvar2 : calculate_historical_var cP 2 cMd = .raised := by
    rw [calculate_historical_var,
      if_neg (by simp [portfolioSymbols, List.isEmpty_iff, cP]),
      npPercentile, if_pos (Or.inr (Or.inl (by norm_num)))]
  exact ⟨rfl, fun h => Outcome.noConfusion h, rfl,
    fun h => Outcome.noConfusion h, hvar2,
    by rw [hvar2]; exact fun h => Outcome.noConfusion h⟩

/-- C9 amended: the code performs no input validation and has no InputError:
an empty portfolio proceeds to the download and raises an unstructured
exception at the `df["Close"]` lookup in VaR and volatility; a confidence
level above 1 or below 0 raises inside the percentile computation, after the
fetch; and no operation ever returns a typed InputError for any input. -/
theorem no_input_validation (p : Portfolio) (c : ℚ) (md : MarketData) :
    (p.positions = [] → calculate_historical_var p c md = .raised ∧
      calculate_daily_returns p md = .raised) ∧
    (1 < c → calculate_historical_var p c md = .raised) ∧
    (c < 0 → calculate_historical_var p c md = .raised) ∧
    calculate_historical_var p c md ≠ .inputError ∧
    calculate_daily_returns p md ≠ .inputError ∧
    beta_calculation p md ≠ .inputError := by
  refine ⟨?_, ?_, ?_, ?_, ?_, ?_⟩
  · intro hempty
    have he : (portfolioSymbols p).isEmpty = true := by
      rw [portfolioSymbols, hempty]
      rfl
    exact ⟨by rw [calculate_historical_var, if_pos he],
      by rw [calculate_daily_returns, if_pos he]⟩
  · intro hc
    by_cases he : (portfolioSymbols p).isEmpty = true
    · rw [calculate_historical_var, if_pos he]
    · rw [calculate_historical_var, if_neg he, npPercentile,
        if_pos (Or.inr (Or.inl (by nlinarith)))]
  · intro hc
    by_cases he : (portfolioSymbols p).isEmpty = true
    · rw [calculate_historical_var, if_pos he]
    · rw [calculate_historical_var, if_neg he, npPercentile,
        if_pos (Or.inr (Or.inr (by nlinarith)))]
  · rcases historical_var_outcomes p c md with h | ⟨v, h⟩ <;> rw [h] <;>
      exact fun hh => Outcome.noConfusion hh
  · rcases daily_returns_outcomes p md with h | h | ⟨r, h⟩ <;> rw [h] <;>
      exact fun hh => Outcome.noConfusion hh
  · rcases beta_outcomes p md with h | ⟨v, h⟩ <;> rw [h] <;>
      exact fun hh => Outcome.noConfusion hh

/-- Witness for the amended C9: the concrete empty portfolio and a concrete
out-of-range confidence level. -/
theorem no_input_validation_witness :
    calculate_historical_var ⟨[]⟩ (1/2) cMd = .raised ∧
    calculate_daily_returns ⟨[]⟩ cMd = .raised ∧
    calculate_historical_var cP 2 cMd = .raised ∧
    calculate_historical_var cP 2 cMd ≠ .inputError :=
  ⟨((no_input_validation ⟨[]⟩ (1/2) cMd).1 rfl).1,
    ((no_input_validation ⟨[]⟩ (1/2) cMd).1 rfl).2,
    (no_input_validation cP 2 cMd).2.1 (by norm_num),
    (no_input_validation cP 2 cMd).2.2.2.1⟩

end RiskPulse
